import Mathlib

/-!
Shallow embedding of the gallery build pipeline `scripts/update-gallery.js`.

The script scans a photo directory tree, conditionally optimizes each original
image in place (auto-rotate / downscale / JPEG re-encode), derives a WebP
thumbnail per image, extracts EXIF metadata, and emits an ordered manifest of
photo records.

Modelling conventions:
- the filesystem is explicit: a source tree of named entries, an association
  list of thumbnail files, and a list of created thumbnail directories;
- paths are lists of segments relative to the photos root; web URLs join the
  segments with a slash, which also models the backslash normalization;
- image bytes are abstracted as `FileContent`: the encoding format and
  quality, what `sharp.metadata()` reports (`none` models a decode failure,
  i.e. a thrown and caught error), what `image-size` reports, and what
  `ExifReader.load` reports (`none` models a parse failure);
- the effects of the external image library on a buffer (rotate, resize
  inside a bounding box without enlargement, JPEG or WebP encode with
  metadata kept or stripped) are modelled on those abstract fields exactly as
  its documentation specifies: rotation normalizes the orientation tag and
  swaps the stored dimensions for orientations 5 through 8, resizing scales
  both axes by the same factor with half-up rounding, re-encoding fixes the
  format and quality;
- JavaScript falsiness of the string values flowing through the EXIF helpers
  is modelled by the empty string; `parseFloat` is modelled exactly over the
  decimal grammar (sign, digits, optional fraction), as the integer numerator
  and the count of fraction digits; exponent suffixes are treated as trailing
  garbage and a completely non-numeric string maps to `none` (NaN);
- each run logs which original files, thumbnail attempts, and thumbnail
  writes happened, so that "the file was rewritten" is observable even when
  the rewritten bytes happen to coincide.
-/

/-! ## String helpers shared by the path and title logic -/

/-- Lowercase every character, modelling `String.prototype.toLowerCase` on the
ASCII names the script compares. -/
def lowerStr (s : String) : String := String.mk (s.toList.map Char.toLower)

/-- Suffix of a character list starting at its last dot, if any dot occurs. -/
def lastDotSuffix : List Char → Option (List Char)
  | [] => none
  | c :: rest =>
    match lastDotSuffix rest with
    | some e => some e
    | none => if c = '.' then some (c :: rest) else none

/-- Model of Node `path.extname` applied to a bare file name: the substring
from the last dot, except that a dot in first position (hidden file) or a
missing dot yields the empty string. -/
def extnameOf (name : String) : String :=
  match lastDotSuffix name.toList with
  | some e => if e.length = name.toList.length then "" else String.mk e
  | none => ""

/-- The lowercased extension, as computed at line 59 of the script. -/
def extLower (name : String) : String := lowerStr (extnameOf name)

/-- The extension allow-list of line 60. -/
def allowedExts : List String := [".jpg", ".jpeg", ".png", ".webp"]

/-- Display title of line 176: drop a trailing dot-extension when the part
after the last dot is nonempty and free of slashes (the regex
matching a dot followed by characters other than dot and slash up to the
end), then turn every dash into a space. -/
def titleOf (name : String) : String :=
  let cs := name.toList
  let stripped :=
    match lastDotSuffix cs with
    | some e =>
      match e with
      | _ :: rest =>
        if rest ≠ [] ∧ ¬ rest.contains '/' then cs.take (cs.length - e.length) else cs
      | [] => cs
    | none => cs
  String.mk (stripped.map (fun c => if c = '-' then ' ' else c))

/-- Uppercase the first character and keep the rest, as at line 168. -/
def capitalizeStr (s : String) : String :=
  match s.toList with
  | [] => ""
  | c :: r => String.mk (c.toUpper :: r)

/-- Category of a file whose containing directory has the given path relative
to the photos root (lines 164 to 169): the empty path is the falsy
`categoryPath`, otherwise the first segment, capitalized. -/
def categoryOf (d : List String) : String :=
  match d with
  | [] => "General"
  | c :: _ => capitalizeStr c

/-- Model of Node `path.basename(p, ext)`: the name with a trailing `ext`
removed when `ext` is nonempty and a proper suffix of the name.  The script
passes the lowercased extension, so an uppercase-named file keeps its full
name here, exactly as Node behaves. -/
def basenameDrop (name ext : String) : String :=
  let nc := name.toList
  let ec := ext.toList
  if ec ≠ [] ∧ ec.length < nc.length ∧ ec.isSuffixOf nc then
    String.mk (nc.take (nc.length - ec.length))
  else name

/-- Thumbnail file name of line 106: base name with the lowercased extension
stripped, then a fixed webp extension. -/
def thumbName (n : String) : String := basenameDrop n (extLower n) ++ ".webp"

/-- Thumbnail path (relative to the thumbnails root) of line 107. -/
def thumbRelOf (d : List String) (n : String) : List String := d ++ [thumbName n]

/-- Web path: join segments with forward slashes (lines 109 and 174 also
replace any backslash separators with slashes, which the segment
representation makes implicit). -/
def joinPath (p : List String) : String := String.intercalate "/" p

/-! ## Abstract image contents -/

/-- Encoding format of an image buffer or file. -/
inductive ImgFormat where
  | jpeg | png | webp | other
  deriving DecidableEq, Repr

/-- What `sharp.metadata()` reports for a decodable buffer: the stored pixel
dimensions and the EXIF orientation tag if present. -/
structure ImageMeta where
  width : Nat
  height : Nat
  orientation : Option Nat
  deriving DecidableEq, Repr

/-- One EXIF tag as `ExifReader` exposes it: a human-readable description and
a raw value.  JavaScript falsiness (absent or empty field) is modelled by the
empty string. -/
structure TagVal where
  description : String
  value : String
  deriving DecidableEq, Repr

/-- Abstract content of an image file or buffer. `meta = none` models bytes
`sharp` fails to decode (metadata or encode throws, caught by the script);
`dims = none` models an `image-size` failure; `tags = none` models an
`ExifReader.load` failure. -/
structure FileContent where
  format : ImgFormat
  encQuality : Option Nat
  meta : Option ImageMeta
  dims : Option (Nat × Nat)
  tags : Option (List (String × TagVal))
  deriving DecidableEq, Repr

/-- CONFIG.thumbnail.width (line 18). -/
def thumbWidth : Nat := 600

/-- CONFIG.thumbnail.quality (line 19). -/
def thumbQuality : Nat := 80

/-- CONFIG.full.maxWidth (line 23). -/
def fullMaxWidth : Nat := 2500

/-- CONFIG.full.quality (line 24). -/
def fullQuality : Nat := 90

/-- Line 76: `metadata.orientation && metadata.orientation !== 1` — the tag
must be present, truthy (nonzero), and different from 1. -/
def needsRotation (m : ImageMeta) : Bool :=
  match m.orientation with
  | none => false
  | some o => !(o == 0) && !(o == 1)

/-- Line 75: either stored dimension exceeds the configured maximum. -/
def isTooLarge (m : ImageMeta) : Bool :=
  decide (fullMaxWidth < m.width) || decide (fullMaxWidth < m.height)

/-- Dimensions after `sharp().rotate()` normalizes the EXIF orientation:
orientations 5 through 8 are quarter turns and swap the stored axes. -/
def rotatedDims (m : ImageMeta) : Nat × Nat :=
  match m.orientation with
  | some o => if 5 ≤ o ∧ o ≤ 8 then (m.height, m.width) else (m.width, m.height)
  | none => (m.width, m.height)

/-- Nearest integer to a/b with halves rounding up (how the image library
rounds scaled dimensions), for b > 0. -/
def jsRoundDiv (a b : Nat) : Nat := (2 * a + b) / (2 * b)

/-- Effect of `resize(max, max, { fit: 'inside', withoutEnlargement: true })`
(lines 86 to 89) on the post-rotation dimensions: scale both axes by the same
factor so that both fit in the bounding box, never enlarging, keeping at
least one pixel. -/
def resizeInside (w h : Nat) : Nat × Nat :=
  if w ≤ fullMaxWidth ∧ h ≤ fullMaxWidth then (w, h)
  else
    let m := max w h
    (max 1 (jsRoundDiv (w * fullMaxWidth) m), max 1 (jsRoundDiv (h * fullMaxWidth) m))

/-- Pixel dimensions after the optimization pipeline: rotation first, then
the bounded resize, applied only when the size guard of line 85 fired. -/
def optDims (m : ImageMeta) : Nat × Nat :=
  if isTooLarge m then resizeInside (rotatedDims m).1 (rotatedDims m).2 else rotatedDims m

/-- Content produced by the optimization pipeline of lines 83 to 95: rotate,
conditionally resize inside the configured box, keep the EXIF tags
(`withMetadata`, with the orientation normalized to 1), and JPEG-encode at
the configured quality. -/
def optimizeContent (c : FileContent) (m : ImageMeta) : FileContent :=
  { format := .jpeg
    encQuality := some fullQuality
    meta := some { width := (optDims m).1, height := (optDims m).2, orientation := some 1 }
    dims := some (optDims m)
    tags := c.tags }

/-- Step 1 of per-file processing (lines 70 to 102): returns the buffer after
the conditional optimization together with the `needsUpdate` flag.  A
metadata failure is caught and leaves the buffer untouched. -/
def optStep (c : FileContent) : FileContent × Bool :=
  match c.meta with
  | none => (c, false)
  | some m =>
    if needsRotation m || isTooLarge m then (optimizeContent c m, true) else (c, false)

/-- Content of a generated thumbnail (lines 115 to 118): resize to the
configured width without enlargement (height proportional), WebP-encode at
the thumbnail quality, dropping EXIF. -/
def thumbOf (m : ImageMeta) : FileContent :=
  let wh :=
    if m.width ≤ thumbWidth then (m.width, m.height)
    else (thumbWidth, max 1 (jsRoundDiv (m.height * thumbWidth) m.width))
  { format := .webp
    encQuality := some thumbQuality
    meta := some { width := wh.1, height := wh.2, orientation := none }
    dims := some wh
    tags := some [] }

/-! ## EXIF extraction and formatting -/

/-- First tag with the given name in the parsed tag list. -/
def tagLookup : List (String × TagVal) → String → Option TagVal
  | [], _ => none
  | (k, v) :: r, n => if k = n then some v else tagLookup r n

/-- The tag list the script works with: an `ExifReader` failure is caught and
behaves as an empty tag object (lines 124 to 130). -/
def tagsOf (c : FileContent) : List (String × TagVal) := c.tags.getD []

/-- The `getTag` helper of lines 132 to 137:
description, else value, else empty string. -/
def getTag (ts : List (String × TagVal)) (n : String) : String :=
  match tagLookup ts n with
  | some t =>
    if t.description ≠ "" then t.description
    else if t.value ≠ "" then t.value
    else ""
  | none => ""

/-- JavaScript `a || b` on the strings flowing through the EXIF assembly:
the left operand unless it is falsy (empty). -/
def orFalsy (a b : String) : String := if a = "" then b else a

/-- Digits to a natural number, most significant first. -/
def digitsToNat (cs : List Char) : Nat :=
  cs.foldl (fun a c => a * 10 + (c.toNat - 48)) 0

/-- Model of `parseFloat` on the decimal grammar: optional leading
whitespace, optional sign, digits with an optional fractional part; `none`
models NaN (no digits at all).  The result is exact: a numerator `n` and a
count `k` of fraction digits, the parsed value being n / 10 ^ k.  Exponent
suffixes are not modelled (they are treated as trailing garbage); the tag
strings the script parses are plain decimals. -/
def parseDec (s : String) : Option (ℤ × ℕ) :=
  let cs := s.toList.dropWhile (fun c => c.isWhitespace)
  let sg : ℤ := match cs with
    | '-' :: _ => -1
    | _ => 1
  let cs2 := match cs with
    | '-' :: r => r
    | '+' :: r => r
    | _ => cs
  let ip := cs2.takeWhile (fun c => c.isDigit)
  let rest := cs2.dropWhile (fun c => c.isDigit)
  let fp := match rest with
    | '.' :: r => r.takeWhile (fun c => c.isDigit)
    | _ => []
  if ip = [] ∧ fp = [] then none
  else some (sg * ((digitsToNat ip : ℤ) * 10 ^ fp.length + (digitsToNat fp : ℤ)), fp.length)

/-- `Math.round` of the exact ratio a / b (for b nonzero): the floor of
a / b + 1 / 2, i.e. the nearest integer with halves rounding toward positive
infinity, computed with floor division on integers. -/
def jsRoundRatio (a b : ℤ) : ℤ := Int.fdiv (2 * a + b) (2 * b)

/-- Whether the string contains a slash (`val.toString().includes('/')`). -/
def slashIn (s : String) : Bool := s.toList.contains '/'

/-- The shutter-speed formatter of lines 140 to 146.  The script only ever
passes strings (the result of `getTag`), so falsiness is the empty string.
With the parsed value n / 10 ^ k, the guard `num >= 1 || num === 0` is
`10 ^ k ≤ n ∨ n = 0`, and `Math.round(1 / num)` is the half-up rounding of
10 ^ k / n.  An unparsable value (NaN) falls through both numeric guards and
produces the literal interpolation of NaN. -/
def formatShutter (val : String) : String :=
  if val = "" then ""
  else if slashIn val then val
  else
    match parseDec val with
    | some (n, k) =>
      if 10 ^ k ≤ n ∨ n = 0 then val
      else "1/" ++ toString (jsRoundRatio (10 ^ k) n)
    | none => "1/NaN"

/-- Whether the lowercased string starts with the letter f. -/
def startsWithF (s : String) : Bool :=
  match s.toList with
  | [] => false
  | c :: _ => c.toLower == 'f'

/-- The aperture formatter of lines 149 to 153. -/
def formatAperture (val : String) : String :=
  if val = "" then ""
  else if startsWithF val then val else "f/" ++ val

/-- The embedded metadata sub-record of a manifest entry. -/
structure ExifData where
  camera : String
  lens : String
  iso : String
  aperture : String
  shutter : String
  deriving DecidableEq, Repr

/-- EXIF assembly of lines 180 to 186, with the fallback chains of `||`. -/
def exifOf (c : FileContent) : ExifData :=
  let g := getTag (tagsOf c)
  { camera := orFalsy (g "Model") (orFalsy (g "Make") "Unknown Camera")
    lens := orFalsy (g "LensModel") (orFalsy (g "Lens") (orFalsy (g "LensInfo") "Unknown Lens"))
    iso := orFalsy (g "ISOSpeedRatings") (orFalsy (g "ISO") "")
    aperture := formatAperture (orFalsy (g "FNumber") (g "ApertureValue"))
    shutter := formatShutter (orFalsy (g "ExposureTime") (g "ShutterSpeedValue")) }

/-- The tag names the record assembly ever looks up. -/
def lookedUpTags : List String :=
  ["Model", "Make", "LensModel", "Lens", "LensInfo",
   "ISOSpeedRatings", "ISO", "FNumber", "ApertureValue", "ShutterSpeedValue", "ExposureTime"]

/-- One manifest record (lines 172 to 187). -/
structure Photo where
  id : Nat
  src : String
  thumbnail : String
  title : String
  width : Nat
  height : Nat
  category : String
  exif : ExifData
  deriving DecidableEq, Repr

/-- Build the record for a file named `n` in the directory at relative path
`d`, from the (possibly already optimized) buffer `c`. -/
def mkPhoto (pid : Nat) (d : List String) (n : String) (c : FileContent) : Photo :=
  { id := pid
    src := "/photos/" ++ joinPath (d ++ [n])
    thumbnail := "/thumbnails/" ++ joinPath (thumbRelOf d n)
    title := titleOf n
    width := (c.dims.getD (0, 0)).1
    height := (c.dims.getD (0, 0)).2
    category := categoryOf d
    exif := exifOf c }

/-! ## Filesystem state and the traversal -/

/-- The derived-asset side of the filesystem: which thumbnail directories
exist and which thumbnail files exist, keyed by path relative to the
thumbnails root. -/
structure FsState where
  thumbDirs : List (List String)
  thumbs : List (List String × FileContent)
  deriving DecidableEq, Repr

/-- Association lookup on the thumbnail files. -/
def assocGet : List (List String × FileContent) → List String → Option FileContent
  | [], _ => none
  | (k, v) :: r, p => if k = p then some v else assocGet r p

/-- Association overwrite-or-insert on the thumbnail files, modelling a file
write at a path. -/
def assocSet : List (List String × FileContent) → List String → FileContent →
    List (List String × FileContent)
  | [], p, c => [(p, c)]
  | (k, v) :: r, p, c => if k = p then (p, c) :: r else (k, v) :: assocSet r p c

/-- `fs.existsSync(thumbPath)` (line 113). -/
def thumbExists (fs : FsState) (p : List String) : Bool := (assocGet fs.thumbs p).isSome

/-- Full traversal state: the derived filesystem, the accumulated manifest
and id counter, and per-run logs of original-file writes, thumbnail
generation attempts, and successful thumbnail writes. -/
structure St where
  fs : FsState
  photos : List Photo
  nextId : Nat
  origWrites : List (List String)
  thumbAttempts : List (List String)
  thumbWrites : List (List String)
  deriving DecidableEq, Repr

/-- Lines 51 to 54: create the mirrored thumbnail directory if missing. -/
def ensureDir (st : St) (d : List String) : St :=
  if d ∈ st.fs.thumbDirs then st
  else { st with fs := { st.fs with thumbDirs := st.fs.thumbDirs ++ [d] } }

/-- Line 96 as observed on the state: when the optimization triggered, the
rewrite of the original file is logged (`fs.writeFileSync(fullPath, ...)`). -/
def optWrite (st : St) (rel : List String) (updated : Bool) : St :=
  if updated then { st with origWrites := st.origWrites ++ [rel] } else st

/-- Thumbnail generation, lines 111 to 122: attempted when the thumbnail is
missing or the original was updated this run; succeeds (writes the file)
exactly when the buffer decodes, i.e. when its metadata is available — a
failure is caught and leaves the filesystem untouched. -/
def thumbStep (st : St) (thumbRel : List String) (cm : Option ImageMeta) (updated : Bool) : St :=
  if !thumbExists st.fs thumbRel || updated then
    let sta := { st with thumbAttempts := st.thumbAttempts ++ [thumbRel] }
    match cm with
    | some m =>
      { sta with
        fs := { sta.fs with thumbs := assocSet sta.fs.thumbs thumbRel (thumbOf m) }
        thumbWrites := sta.thumbWrites ++ [thumbRel] }
    | none => sta
  else st

/-- Line 189: append the record, line 173: bump the id counter. -/
def pushPhoto (st : St) (p : Photo) : St :=
  { st with photos := st.photos ++ [p], nextId := st.nextId + 1 }

/-- Per-file processing (lines 58 to 189), after the thumbnail directory of
the containing directory has been ensured: filter by extension, conditionally
optimize the original in place, conditionally generate the thumbnail, then
assemble and append the record.  Returns the updated state and the file
entry as it exists on disk afterwards. -/
def processFile (st : St) (d : List String) (n : String) (c : FileContent) : St × (String × FileContent) :=
  if extLower n ∈ allowedExts then
    let s := optStep c
    let st1 := optWrite st (d ++ [n]) s.2
    let st2 := thumbStep st1 (thumbRelOf d n) s.1.meta s.2
    (pushPhoto st2 (mkPhoto st2.nextId d n s.1), (n, s.1))
  else (st, (n, c))

/-- A node of the source tree: an image (or arbitrary) file with abstract
contents, or a subdirectory with its entries in `readdirSync` order. -/
inductive Entry where
  | file (name : String) (content : FileContent)
  | dir (name : String) (entries : List Entry)

mutual

/-- `processDirectory` of lines 43 to 192, per entry.  `d` is the path of the
containing directory relative to the photos root; the mirrored thumbnail
directory of the containing directory is ensured before anything else, for
directories and unsupported files alike (lines 50 to 54). -/
def processEntry (st : St) (d : List String) : Entry → St × Entry
  | .file n c =>
    let r := processFile (ensureDir st d) d n c
    (r.1, .file r.2.1 r.2.2)
  | .dir n es =>
    let r := processEntries (ensureDir st d) (d ++ [n]) es
    (r.1, .dir n r.2)

/-- Fold of `processEntry` over the entry list of one directory, in order. -/
def processEntries (st : St) (d : List String) : List Entry → St × List Entry
  | [] => (st, [])
  | e :: es =>
    let r1 := processEntry st d e
    let r2 := processEntries r1.1 d es
    (r2.1, r1.2 :: r2.2)

end

/-- Outcome of one pipeline run: the source tree as left on disk, the derived
filesystem, the manifest, and the per-run logs. -/
structure RunResult where
  tree : List Entry
  fs : FsState
  photos : List Photo
  origWrites : List (List String)
  thumbAttempts : List (List String)
  thumbWrites : List (List String)

/-- Fresh per-run state over a given derived filesystem (lines 38 and 39:
empty manifest, id counter starting at 1). -/
def initSt (fs : FsState) : St :=
  { fs := fs, photos := [], nextId := 1, origWrites := [], thumbAttempts := [], thumbWrites := [] }

/-- One run of the traversal from the photos root. -/
def run (fs : FsState) (tree : List Entry) : RunResult :=
  let r := processEntries (initSt fs) [] tree
  { tree := r.2, fs := r.1.fs, photos := r.1.photos, origWrites := r.1.origWrites,
    thumbAttempts := r.1.thumbAttempts, thumbWrites := r.1.thumbWrites }

/-- Outcome of the whole script: the manifest written to the output file
(`none` when the write never happened), the count reported on success, and
the run outcome. -/
structure ScriptResult where
  output : Option (List Photo)
  reported : Option Nat
  result : RunResult

/-- `generateGallery` of lines 37 to 202: if the photos root exists, traverse
it and unconditionally write the serialized manifest, reporting the photo
count; otherwise log and stop without writing the output file. -/
def generateGallery (photosDirOk : Bool) (fs : FsState) (tree : List Entry) : ScriptResult :=
  if photosDirOk then
    let r := run fs tree
    { output := some r.photos, reported := some r.photos.length, result := r }
  else
    { output := none, reported := none,
      result := { tree := tree, fs := fs, photos := [], origWrites := [],
                  thumbAttempts := [], thumbWrites := [] } }

/-- The whole script: the module-level startup of lines 30 to 35 creates the
photos root (as an empty directory when absent, `root = none`) and the
thumbnails root, after which the existence check of line 194 is true, and
`generateGallery` runs. -/
def runScript (root : Option (List Entry)) (fs0 : FsState) : ScriptResult :=
  let tree := root.getD []
  let fs := if [] ∈ fs0.thumbDirs then fs0 else { fs0 with thumbDirs := fs0.thumbDirs ++ [[]] }
  generateGallery true fs tree

/-! ## Specification mirrors of the traversal

Pure functions of the tree alone, used to state what the traversal produces:
the relative paths of the allow-listed files in visit order, and the records
the run appends. -/

mutual

/-- Relative paths of the allow-listed files under one entry, in visit
order. -/
def allowedPathsE (d : List String) : Entry → List (List String)
  | .file n _ => if extLower n ∈ allowedExts then [d ++ [n]] else []
  | .dir n es => allowedPathsL (d ++ [n]) es

/-- Relative paths of the allow-listed files under an entry list. -/
def allowedPathsL (d : List String) : List Entry → List (List String)
  | [] => []
  | e :: es => allowedPathsE d e ++ allowedPathsL d es

end

mutual

/-- Records one run emits for one entry when the next free id is `n0`: one
record per allow-listed file, built from the post-optimization buffer. -/
def recordsE (n0 : Nat) (d : List String) : Entry → List Photo
  | .file n c =>
    if extLower n ∈ allowedExts then [mkPhoto n0 d n (optStep c).1] else []
  | .dir n es => recordsL n0 (d ++ [n]) es

/-- Records one run emits for an entry list when the next free id is `n0`. -/
def recordsL (n0 : Nat) (d : List String) : List Entry → List Photo
  | [] => []
  | e :: es =>
    let r := recordsE n0 d e
    r ++ recordsL (n0 + r.length) d es

end

mutual

/-- Invariant a subtree satisfies after a run has processed it, relative to
the derived filesystem: the mirrored directory of the containing directory
exists; every allow-listed file is stable under the optimization step and,
when its bytes decode, its thumbnail exists. -/
def Ready (fs : FsState) (d : List String) : Entry → Prop
  | .file n c =>
    d ∈ fs.thumbDirs ∧
    (extLower n ∈ allowedExts →
      optStep c = (c, false) ∧
      (c.meta ≠ none → thumbExists fs (thumbRelOf d n) = true))
  | .dir n es => d ∈ fs.thumbDirs ∧ ReadyL fs (d ++ [n]) es

/-- `Ready` for every entry of a directory. -/
def ReadyL (fs : FsState) (d : List String) : List Entry → Prop
  | [] => True
  | e :: es => Ready fs d e ∧ ReadyL fs d es

end

/-! ## Small step lemmas -/

theorem assocGet_set_self (l : List (List String × FileContent)) (p : List String)
    (c : FileContent) : assocGet (assocSet l p c) p = some c := by
  induction l with
  | nil => simp [assocSet, assocGet]
  | cons kv r ih =>
    obtain ⟨k, v⟩ := kv
    by_cases h : k = p
    · simp [assocSet, assocGet, h]
    · simp [assocSet, assocGet, h, ih]

theorem assocGet_set_other (l : List (List String × FileContent)) (p q : List String)
    (c : FileContent) (h : q ≠ p) : assocGet (assocSet l p c) q = assocGet l q := by
  induction l with
  | nil => simp [assocSet, assocGet, Ne.symm h]
  | cons kv r ih =>
    obtain ⟨k, v⟩ := kv
    by_cases hk : k = p
    · subst hk
      have hkq : ¬ k = q := fun hh => h hh.symm
      simp [assocSet, assocGet, hkq]
    · simp [assocSet, assocGet, hk, ih]

theorem thumbExists_set (fs : FsState) (p q : List String) (c : FileContent)
    (h : thumbExists fs q = true) :
    thumbExists { fs with thumbs := assocSet fs.thumbs p c } q = true := by
  by_cases hq : q = p
  · subst hq
    simp [thumbExists, assocGet_set_self]
  · simpa [thumbExists, assocGet_set_other fs.thumbs p q c hq] using h

theorem ensureDir_photos (st : St) (d : List String) : (ensureDir st d).photos = st.photos := by
  unfold ensureDir; split <;> rfl

theorem ensureDir_nextId (st : St) (d : List String) : (ensureDir st d).nextId = st.nextId := by
  unfold ensureDir; split <;> rfl

theorem ensureDir_origWrites (st : St) (d : List String) :
    (ensureDir st d).origWrites = st.origWrites := by
  unfold ensureDir; split <;> rfl

theorem ensureDir_thumbAttempts (st : St) (d : List String) :
    (ensureDir st d).thumbAttempts = st.thumbAttempts := by
  unfold ensureDir; split <;> rfl

theorem ensureDir_thumbWrites (st : St) (d : List String) :
    (ensureDir st d).thumbWrites = st.thumbWrites := by
  unfold ensureDir; split <;> rfl

theorem ensureDir_thumbs (st : St) (d : List String) :
    (ensureDir st d).fs.thumbs = st.fs.thumbs := by
  unfold ensureDir; split <;> rfl

theorem ensureDir_mem (st : St) (d : List String) : d ∈ (ensureDir st d).fs.thumbDirs := by
  unfold ensureDir
  split
  · assumption
  · simp

theorem ensureDir_dirs_sub (st : St) (d : List String) :
    st.fs.thumbDirs ⊆ (ensureDir st d).fs.thumbDirs := by
  unfold ensureDir
  split
  · exact fun x hx => hx
  · exact List.subset_append_left _ _

theorem ensureDir_of_mem (st : St) (d : List String) (h : d ∈ st.fs.thumbDirs) :
    ensureDir st d = st := by
  unfold ensureDir
  simp [h]

theorem optWrite_fs (st : St) (rel : List String) (u : Bool) : (optWrite st rel u).fs = st.fs := by
  unfold optWrite; split <;> rfl

theorem optWrite_photos (st : St) (rel : List String) (u : Bool) :
    (optWrite st rel u).photos = st.photos := by
  unfold optWrite; split <;> rfl

theorem optWrite_nextId (st : St) (rel : List String) (u : Bool) :
    (optWrite st rel u).nextId = st.nextId := by
  unfold optWrite; split <;> rfl

theorem optWrite_thumbAttempts (st : St) (rel : List String) (u : Bool) :
    (optWrite st rel u).thumbAttempts = st.thumbAttempts := by
  unfold optWrite; split <;> rfl

theorem optWrite_thumbWrites (st : St) (rel : List String) (u : Bool) :
    (optWrite st rel u).thumbWrites = st.thumbWrites := by
  unfold optWrite; split <;> rfl

theorem optWrite_origWrites (st : St) (rel : List String) (u : Bool) :
    (optWrite st rel u).origWrites = st.origWrites ++ (if u then [rel] else []) := by
  unfold optWrite; split <;> simp_all

theorem thumbStep_photos (st : St) (p : List String) (cm : Option ImageMeta) (u : Bool) :
    (thumbStep st p cm u).photos = st.photos := by
  unfold thumbStep
  split
  · cases cm <;> rfl
  · rfl

theorem thumbStep_nextId (st : St) (p : List String) (cm : Option ImageMeta) (u : Bool) :
    (thumbStep st p cm u).nextId = st.nextId := by
  unfold thumbStep
  split
  · cases cm <;> rfl
  · rfl

theorem thumbStep_origWrites (st : St) (p : List String) (cm : Option ImageMeta) (u : Bool) :
    (thumbStep st p cm u).origWrites = st.origWrites := by
  unfold thumbStep
  split
  · cases cm <;> rfl
  · rfl

theorem thumbStep_thumbDirs (st : St) (p : List String) (cm : Option ImageMeta) (u : Bool) :
    (thumbStep st p cm u).fs.thumbDirs = st.fs.thumbDirs := by
  unfold thumbStep
  split
  · cases cm <;> rfl
  · rfl

theorem thumbStep_thumbAttempts (st : St) (p : List String) (cm : Option ImageMeta) (u : Bool) :
    (thumbStep st p cm u).thumbAttempts =
      st.thumbAttempts ++ (if !thumbExists st.fs p || u then [p] else []) := by
  unfold thumbStep
  split
  · rename_i h
    cases cm <;> simp [h]
  · rename_i h
    simp [h]

theorem thumbStep_skip (st : St) (p : List String) (cm : Option ImageMeta) (u : Bool)
    (h : (!thumbExists st.fs p || u) = false) : thumbStep st p cm u = st := by
  unfold thumbStep
  split
  · rename_i hc
    simp [h] at hc
  · rfl

theorem thumbStep_none_fs (st : St) (p : List String) (u : Bool) :
    (thumbStep st p none u).fs = st.fs := by
  unfold thumbStep
  split <;> rfl

theorem thumbStep_none_thumbWrites (st : St) (p : List String) (u : Bool) :
    (thumbStep st p none u).thumbWrites = st.thumbWrites := by
  unfold thumbStep
  split <;> rfl

theorem thumbStep_exists_mono (st : St) (p q : List String) (cm : Option ImageMeta) (u : Bool)
    (h : thumbExists st.fs q = true) : thumbExists (thumbStep st p cm u).fs q = true := by
  unfold thumbStep
  split
  · cases cm with
    | none => exact h
    | some m => exact thumbExists_set st.fs p q (thumbOf m) h
  · exact h

theorem thumbStep_exists_some (st : St) (p : List String) (m : ImageMeta) (u : Bool) :
    thumbExists (thumbStep st p (some m) u).fs p = true := by
  unfold thumbStep
  split
  · simp [thumbExists, assocGet_set_self]
  · rename_i h
    simp at h
    exact h.1

theorem pushPhoto_fs (st : St) (p : Photo) : (pushPhoto st p).fs = st.fs := rfl

theorem pushPhoto_origWrites (st : St) (p : Photo) :
    (pushPhoto st p).origWrites = st.origWrites := rfl

theorem pushPhoto_thumbAttempts (st : St) (p : Photo) :
    (pushPhoto st p).thumbAttempts = st.thumbAttempts := rfl

theorem pushPhoto_thumbWrites (st : St) (p : Photo) :
    (pushPhoto st p).thumbWrites = st.thumbWrites := rfl

/-! ## Facts about the optimization step -/

theorem jsRoundDiv_le (a b c : Nat) (hb : 0 < b) (h : a ≤ b * c) : jsRoundDiv a b ≤ c := by
  unfold jsRoundDiv
  have h2b : 0 < 2 * b := by omega
  rw [Nat.div_le_iff_le_mul_add_pred h2b]
  have h3 : 2 * b * c = 2 * (b * c) := Nat.mul_assoc 2 b c
  rw [h3]
  omega

theorem resizeInside_le (w h : Nat) :
    (resizeInside w h).1 ≤ fullMaxWidth ∧ (resizeInside w h).2 ≤ fullMaxWidth := by
  unfold resizeInside
  split
  · rename_i hwh
    exact hwh
  · rename_i hwh
    have hm : 0 < max w h := by
      rcases Nat.lt_or_ge w 1 with hw | hw
      · rcases Nat.lt_or_ge h 1 with hh | hh
        · exact absurd ⟨by unfold fullMaxWidth; omega, by unfold fullMaxWidth; omega⟩ hwh
        · omega
      · omega
    have h1 : jsRoundDiv (w * fullMaxWidth) (max w h) ≤ fullMaxWidth :=
      jsRoundDiv_le _ _ _ hm (by
        have : w ≤ max w h := Nat.le_max_left w h
        calc w * fullMaxWidth ≤ max w h * fullMaxWidth := Nat.mul_le_mul_right _ this
          _ = max w h * fullMaxWidth := rfl)
    have h2 : jsRoundDiv (h * fullMaxWidth) (max w h) ≤ fullMaxWidth :=
      jsRoundDiv_le _ _ _ hm (by
        have : h ≤ max w h := Nat.le_max_right w h
        exact Nat.mul_le_mul_right _ this)
    have hfm : 1 ≤ fullMaxWidth := by unfold fullMaxWidth; omega
    exact ⟨by simp [h1, hfm], by simp [h2, hfm]⟩

theorem optDims_le (m : ImageMeta) :
    (optDims m).1 ≤ fullMaxWidth ∧ (optDims m).2 ≤ fullMaxWidth := by
  unfold optDims
  split
  · exact resizeInside_le _ _
  · rename_i hlarge
    have hw : m.width ≤ fullMaxWidth ∧ m.height ≤ fullMaxWidth := by
      have := hlarge
      unfold isTooLarge at this
      simp at this
      omega
    unfold rotatedDims
    cases m.orientation with
    | none => exact hw
    | some o =>
      by_cases ho : 5 ≤ o ∧ o ≤ 8
      · simp only [if_pos ho]
        exact ⟨hw.2, hw.1⟩
      · simp only [if_neg ho]
        exact hw

theorem needsRotation_one (w h : Nat) : needsRotation ⟨w, h, some 1⟩ = false := rfl

theorem isTooLarge_false (w h : Nat) (o : Option Nat) (hw : w ≤ fullMaxWidth)
    (hh : h ≤ fullMaxWidth) : isTooLarge ⟨w, h, o⟩ = false := by
  unfold isTooLarge
  simp
  omega

theorem optStep_cases (c : FileContent) :
    optStep c = (c, false) ∨
      ∃ m, c.meta = some m ∧ (needsRotation m || isTooLarge m) = true ∧
        optStep c = (optimizeContent c m, true) := by
  unfold optStep
  cases hm : c.meta with
  | none => exact Or.inl rfl
  | some m =>
    by_cases htr : (needsRotation m || isTooLarge m) = true
    · exact Or.inr ⟨m, rfl, htr, by simp [htr]⟩
    · simp [htr]

theorem optStep_of_false (c : FileContent) (m : ImageMeta) (hm : c.meta = some m)
    (h : (needsRotation m || isTooLarge m) = false) : optStep c = (c, false) := by
  unfold optStep
  rw [hm]
  simp [h]

theorem optStep_of_true (c : FileContent) (m : ImageMeta) (hm : c.meta = some m)
    (h : (needsRotation m || isTooLarge m) = true) :
    optStep c = (optimizeContent c m, true) := by
  unfold optStep
  rw [hm]
  simp [h]

theorem optStep_updated (c : FileContent) (m : ImageMeta) (hm : c.meta = some m) :
    (optStep c).2 = (needsRotation m || isTooLarge m) := by
  cases htr : (needsRotation m || isTooLarge m) with
  | false => rw [optStep_of_false c m hm htr]
  | true => rw [optStep_of_true c m hm htr]

theorem optStep_tags (c : FileContent) : (optStep c).1.tags = c.tags := by
  rcases optStep_cases c with h | ⟨m, _, _, h⟩
  · rw [h]
  · rw [h]
    rfl

theorem optimizeContent_meta (c : FileContent) (m : ImageMeta) :
    (optimizeContent c m).meta =
      some ⟨(optDims m).1, (optDims m).2, some 1⟩ := rfl

theorem optStep_stable (c : FileContent) : optStep (optStep c).1 = ((optStep c).1, false) := by
  rcases optStep_cases c with h | ⟨m, hm, htr, h⟩
  · rw [h]
    exact h
  · rw [h]
    have hmeta := optimizeContent_meta c m
    have hle := optDims_le m
    apply optStep_of_false _ ⟨(optDims m).1, (optDims m).2, some 1⟩ hmeta
    rw [needsRotation_one, isTooLarge_false _ _ _ hle.1 hle.2]
    rfl

/-! ## Per-file processing lemmas -/

theorem processFile_photos (st : St) (d : List String) (n : String) (c : FileContent) :
    (processFile st d n c).1.photos = st.photos ++
      (if extLower n ∈ allowedExts then [mkPhoto st.nextId d n (optStep c).1] else []) := by
  by_cases h : extLower n ∈ allowedExts
  · simp [processFile, pushPhoto, h, thumbStep_photos, optWrite_photos,
      thumbStep_nextId, optWrite_nextId]
  · simp [processFile, h]

theorem processFile_nextId (st : St) (d : List String) (n : String) (c : FileContent) :
    (processFile st d n c).1.nextId = st.nextId +
      (if extLower n ∈ allowedExts then 1 else 0) := by
  by_cases h : extLower n ∈ allowedExts
  · simp [processFile, pushPhoto, h, thumbStep_nextId, optWrite_nextId]
  · simp [processFile, h]

theorem processFile_thumbDirs (st : St) (d : List String) (n : String) (c : FileContent) :
    (processFile st d n c).1.fs.thumbDirs = st.fs.thumbDirs := by
  by_cases h : extLower n ∈ allowedExts
  · simp [processFile, pushPhoto, h, thumbStep_thumbDirs, optWrite_fs]
  · simp [processFile, h]

theorem processFile_exists_mono (st : St) (d : List String) (n : String) (c : FileContent)
    (p : List String) (h : thumbExists st.fs p = true) :
    thumbExists (processFile st d n c).1.fs p = true := by
  by_cases hx : extLower n ∈ allowedExts
  · simp only [processFile, if_pos hx, pushPhoto]
    have h1 : thumbExists (optWrite st (d ++ [n]) (optStep c).2).fs p = true := by
      rw [optWrite_fs]; exact h
    exact thumbStep_exists_mono _ _ _ _ _ h1
  · simp [processFile, hx, h]

theorem processFile_origWrites (st : St) (d : List String) (n : String) (c : FileContent) :
    (processFile st d n c).1.origWrites = st.origWrites ++
      (if extLower n ∈ allowedExts then (if (optStep c).2 then [d ++ [n]] else []) else []) := by
  by_cases h : extLower n ∈ allowedExts
  · simp [processFile, pushPhoto, h, thumbStep_origWrites, optWrite_origWrites]
  · simp [processFile, h]

theorem processFile_thumbAttempts (st : St) (d : List String) (n : String) (c : FileContent) :
    (processFile st d n c).1.thumbAttempts = st.thumbAttempts ++
      (if extLower n ∈ allowedExts then
        (if !thumbExists st.fs (thumbRelOf d n) || (optStep c).2 then [thumbRelOf d n] else [])
      else []) := by
  by_cases h : extLower n ∈ allowedExts
  · simp only [processFile, if_pos h, pushPhoto_thumbAttempts]
    rw [thumbStep_thumbAttempts, optWrite_thumbAttempts, optWrite_fs]
  · simp [processFile, h]

theorem processFile_snd (st : St) (d : List String) (n : String) (c : FileContent) :
    (processFile st d n c).2 =
      (n, if extLower n ∈ allowedExts then (optStep c).1 else c) := by
  by_cases h : extLower n ∈ allowedExts
  · simp [processFile, h]
  · simp [processFile, h]

/-! ## The manifest a run appends -/

mutual

theorem processEntry_photos (st : St) (d : List String) (e : Entry) :
    (processEntry st d e).1.photos = st.photos ++ recordsE st.nextId d e ∧
    (processEntry st d e).1.nextId = st.nextId + (recordsE st.nextId d e).length := by
  cases e with
  | file n c =>
    constructor
    · show (processFile (ensureDir st d) d n c).1.photos = _
      rw [processFile_photos, ensureDir_photos, ensureDir_nextId]
      by_cases h : extLower n ∈ allowedExts <;> simp [recordsE, h]
    · show (processFile (ensureDir st d) d n c).1.nextId = _
      rw [processFile_nextId, ensureDir_nextId]
      by_cases h : extLower n ∈ allowedExts <;> simp [recordsE, h]
  | dir n es =>
    have ih := processEntries_photos (ensureDir st d) (d ++ [n]) es
    constructor
    · show (processEntries (ensureDir st d) (d ++ [n]) es).1.photos = _
      rw [ih.1, ensureDir_photos, ensureDir_nextId]
      rfl
    · show (processEntries (ensureDir st d) (d ++ [n]) es).1.nextId = _
      rw [ih.2, ensureDir_nextId]
      rfl

theorem processEntries_photos (st : St) (d : List String) (es : List Entry) :
    (processEntries st d es).1.photos = st.photos ++ recordsL st.nextId d es ∧
    (processEntries st d es).1.nextId = st.nextId + (recordsL st.nextId d es).length := by
  cases es with
  | nil => simp [processEntries, recordsL]
  | cons e rest =>
    have ih1 := processEntry_photos st d e
    have ih2 := processEntries_photos (processEntry st d e).1 d rest
    constructor
    · show (processEntries (processEntry st d e).1 d rest).1.photos = _
      rw [ih2.1, ih1.1, ih1.2]
      simp [recordsL, List.append_assoc]
    · show (processEntries (processEntry st d e).1 d rest).1.nextId = _
      rw [ih2.2, ih1.2]
      simp [recordsL]
      omega

end

mutual

theorem recordsE_ids (n0 : Nat) (d : List String) (e : Entry) :
    (recordsE n0 d e).map (fun p => p.id) = List.range' n0 (recordsE n0 d e).length := by
  cases e with
  | file n c =>
    by_cases h : extLower n ∈ allowedExts <;>
      simp [recordsE, h, mkPhoto, List.range'_one]
  | dir n es => exact recordsL_ids n0 (d ++ [n]) es

theorem recordsL_ids (n0 : Nat) (d : List String) (es : List Entry) :
    (recordsL n0 d es).map (fun p => p.id) = List.range' n0 (recordsL n0 d es).length := by
  cases es with
  | nil => simp [recordsL]
  | cons e rest =>
    have ih1 := recordsE_ids n0 d e
    have ih2 := recordsL_ids (n0 + (recordsE n0 d e).length) d rest
    simp only [recordsL, List.map_append, List.length_append, ih1, ih2]
    have hap := List.range'_append n0 (recordsE n0 d e).length
      (recordsL (n0 + (recordsE n0 d e).length) d rest).length 1
    simp only [Nat.one_mul] at hap
    rw [hap, Nat.add_comm]

end

mutual

theorem recordsE_srcs (n0 : Nat) (d : List String) (e : Entry) :
    (recordsE n0 d e).map (fun p => p.src) =
      (allowedPathsE d e).map (fun p => "/photos/" ++ joinPath p) := by
  cases e with
  | file n c =>
    by_cases h : extLower n ∈ allowedExts <;>
      simp [recordsE, allowedPathsE, h, mkPhoto]
  | dir n es => exact recordsL_srcs n0 (d ++ [n]) es

theorem recordsL_srcs (n0 : Nat) (d : List String) (es : List Entry) :
    (recordsL n0 d es).map (fun p => p.src) =
      (allowedPathsL d es).map (fun p => "/photos/" ++ joinPath p) := by
  cases es with
  | nil => simp [recordsL, allowedPathsL]
  | cons e rest =>
    have ih1 := recordsE_srcs n0 d e
    have ih2 := recordsL_srcs (n0 + (recordsE n0 d e).length) d rest
    simp [recordsL, allowedPathsL, ih1, ih2]

end

/-! ## Monotonicity of the derived filesystem under processing -/

theorem ensureDir_thumbExists (st : St) (d : List String) (p : List String) :
    thumbExists (ensureDir st d).fs p = thumbExists st.fs p := by
  unfold thumbExists
  rw [ensureDir_thumbs]

theorem optWrite_false (st : St) (rel : List String) : optWrite st rel false = st := by
  unfold optWrite
  simp

mutual

theorem processEntry_mono (st : St) (d : List String) (e : Entry) :
    st.fs.thumbDirs ⊆ (processEntry st d e).1.fs.thumbDirs ∧
    (∀ p, thumbExists st.fs p = true → thumbExists (processEntry st d e).1.fs p = true) := by
  cases e with
  | file n c =>
    constructor
    · show st.fs.thumbDirs ⊆ (processFile (ensureDir st d) d n c).1.fs.thumbDirs
      rw [processFile_thumbDirs]
      exact ensureDir_dirs_sub st d
    · intro p hp
      show thumbExists (processFile (ensureDir st d) d n c).1.fs p = true
      apply processFile_exists_mono
      rw [ensureDir_thumbExists]
      exact hp
  | dir n es =>
    have ih := processEntries_mono (ensureDir st d) (d ++ [n]) es
    constructor
    · show st.fs.thumbDirs ⊆ (processEntries (ensureDir st d) (d ++ [n]) es).1.fs.thumbDirs
      exact (ensureDir_dirs_sub st d).trans ih.1
    · intro p hp
      show thumbExists (processEntries (ensureDir st d) (d ++ [n]) es).1.fs p = true
      apply ih.2
      rw [ensureDir_thumbExists]
      exact hp

theorem processEntries_mono (st : St) (d : List String) (es : List Entry) :
    st.fs.thumbDirs ⊆ (processEntries st d es).1.fs.thumbDirs ∧
    (∀ p, thumbExists st.fs p = true → thumbExists (processEntries st d es).1.fs p = true) := by
  cases es with
  | nil => exact ⟨fun x hx => hx, fun p hp => hp⟩
  | cons e rest =>
    have ih1 := processEntry_mono st d e
    have ih2 := processEntries_mono (processEntry st d e).1 d rest
    exact ⟨ih1.1.trans ih2.1, fun p hp => ih2.2 p (ih1.2 p hp)⟩

end

/-! ## The post-run invariant and the fixpoint of a second run -/

mutual

theorem Ready_mono (fs fs2 : FsState) (d : List String) (e : Entry)
    (hdirs : fs.thumbDirs ⊆ fs2.thumbDirs)
    (hth : ∀ p, thumbExists fs p = true → thumbExists fs2 p = true)
    (h : Ready fs d e) : Ready fs2 d e := by
  cases e with
  | file n c =>
    simp only [Ready] at h ⊢
    exact ⟨hdirs h.1, fun hx => ⟨(h.2 hx).1, fun hm => hth _ ((h.2 hx).2 hm)⟩⟩
  | dir n es =>
    simp only [Ready] at h ⊢
    exact ⟨hdirs h.1, ReadyL_mono fs fs2 (d ++ [n]) es hdirs hth h.2⟩

theorem ReadyL_mono (fs fs2 : FsState) (d : List String) (es : List Entry)
    (hdirs : fs.thumbDirs ⊆ fs2.thumbDirs)
    (hth : ∀ p, thumbExists fs p = true → thumbExists fs2 p = true)
    (h : ReadyL fs d es) : ReadyL fs2 d es := by
  cases es with
  | nil => exact trivial
  | cons e rest =>
    simp only [ReadyL] at h ⊢
    exact ⟨Ready_mono fs fs2 d e hdirs hth h.1, ReadyL_mono fs fs2 d rest hdirs hth h.2⟩

end

theorem processFile_post (st : St) (d : List String) (n : String) (c : FileContent)
    (hd : d ∈ st.fs.thumbDirs) :
    Ready (processFile st d n c).1.fs d
      (.file (processFile st d n c).2.1 (processFile st d n c).2.2) := by
  by_cases hx : extLower n ∈ allowedExts
  · simp only [processFile, if_pos hx]
    simp only [Ready]
    refine ⟨?_, fun _ => ⟨optStep_stable c, fun hm => ?_⟩⟩
    · rw [pushPhoto_fs, thumbStep_thumbDirs, optWrite_fs]
      exact hd
    · rw [pushPhoto_fs]
      cases hme : (optStep c).1.meta with
      | none => exact absurd hme hm
      | some m => exact thumbStep_exists_some _ _ _ _
  · simp only [processFile, if_neg hx]
    simp only [Ready]
    exact ⟨hd, fun hcon => absurd hcon hx⟩

mutual

theorem processEntry_post (st : St) (d : List String) (e : Entry) :
    Ready (processEntry st d e).1.fs d (processEntry st d e).2 := by
  cases e with
  | file n c =>
    exact processFile_post (ensureDir st d) d n c (ensureDir_mem st d)
  | dir n es =>
    have ih := processEntries_post (ensureDir st d) (d ++ [n]) es
    show Ready (processEntries (ensureDir st d) (d ++ [n]) es).1.fs d
      (.dir n (processEntries (ensureDir st d) (d ++ [n]) es).2)
    simp only [Ready]
    exact ⟨(processEntries_mono (ensureDir st d) (d ++ [n]) es).1 (ensureDir_mem st d), ih⟩

theorem processEntries_post (st : St) (d : List String) (es : List Entry) :
    ReadyL (processEntries st d es).1.fs d (processEntries st d es).2 := by
  cases es with
  | nil => exact trivial
  | cons e rest =>
    have ih1 := processEntry_post st d e
    have ih2 := processEntries_post (processEntry st d e).1 d rest
    show ReadyL (processEntries (processEntry st d e).1 d rest).1.fs d
      ((processEntry st d e).2 :: (processEntries (processEntry st d e).1 d rest).2)
    simp only [ReadyL]
    refine ⟨?_, ih2⟩
    exact Ready_mono _ _ d _ (processEntries_mono (processEntry st d e).1 d rest).1
      (processEntries_mono (processEntry st d e).1 d rest).2 ih1

end

theorem processFile_fix (st : St) (d : List String) (n : String) (c : FileContent)
    (h : Ready st.fs d (.file n c)) :
    (processFile st d n c).1.fs = st.fs ∧
    (processFile st d n c).1.origWrites = st.origWrites ∧
    (processFile st d n c).1.thumbWrites = st.thumbWrites ∧
    (processFile st d n c).2 = (n, c) := by
  simp only [Ready] at h
  by_cases hx : extLower n ∈ allowedExts
  · obtain ⟨hstab, hth⟩ := h.2 hx
    simp only [processFile, if_pos hx, hstab]
    rw [optWrite_false]
    cases hme : c.meta with
    | some m =>
      have hex : thumbExists st.fs (thumbRelOf d n) = true := hth (by simp [hme])
      have hskip : (!thumbExists st.fs (thumbRelOf d n) || false) = false := by simp [hex]
      rw [thumbStep_skip _ _ _ _ hskip]
      exact ⟨pushPhoto_fs _ _, pushPhoto_origWrites _ _, pushPhoto_thumbWrites _ _, trivial⟩
    | none =>
      refine ⟨?_, ?_, ?_, trivial⟩
      · rw [pushPhoto_fs, thumbStep_none_fs]
      · rw [pushPhoto_origWrites, thumbStep_origWrites]
      · rw [pushPhoto_thumbWrites, thumbStep_none_thumbWrites]
  · simp [processFile, hx]

mutual

theorem processEntry_fix (st : St) (d : List String) (e : Entry)
    (h : Ready st.fs d e) :
    (processEntry st d e).1.fs = st.fs ∧
    (processEntry st d e).1.origWrites = st.origWrites ∧
    (processEntry st d e).1.thumbWrites = st.thumbWrites ∧
    (processEntry st d e).2 = e := by
  cases e with
  | file n c =>
    have hd : d ∈ st.fs.thumbDirs := by
      simp only [Ready] at h
      exact h.1
    have heq : ensureDir st d = st := ensureDir_of_mem st d hd
    show (processFile (ensureDir st d) d n c).1.fs = st.fs ∧
      (processFile (ensureDir st d) d n c).1.origWrites = st.origWrites ∧
      (processFile (ensureDir st d) d n c).1.thumbWrites = st.thumbWrites ∧
      Entry.file (processFile (ensureDir st d) d n c).2.1
        (processFile (ensureDir st d) d n c).2.2 = Entry.file n c
    rw [heq]
    have hfix := processFile_fix st d n c h
    refine ⟨hfix.1, hfix.2.1, hfix.2.2.1, ?_⟩
    rw [hfix.2.2.2]
  | dir n es =>
    simp only [Ready] at h
    have heq : ensureDir st d = st := ensureDir_of_mem st d h.1
    show (processEntries (ensureDir st d) (d ++ [n]) es).1.fs = st.fs ∧
      (processEntries (ensureDir st d) (d ++ [n]) es).1.origWrites = st.origWrites ∧
      (processEntries (ensureDir st d) (d ++ [n]) es).1.thumbWrites = st.thumbWrites ∧
      Entry.dir n (processEntries (ensureDir st d) (d ++ [n]) es).2 = Entry.dir n es
    rw [heq]
    have ih := processEntries_fix st (d ++ [n]) es h.2
    refine ⟨ih.1, ih.2.1, ih.2.2.1, ?_⟩
    rw [ih.2.2.2]

theorem processEntries_fix (st : St) (d : List String) (es : List Entry)
    (h : ReadyL st.fs d es) :
    (processEntries st d es).1.fs = st.fs ∧
    (processEntries st d es).1.origWrites = st.origWrites ∧
    (processEntries st d es).1.thumbWrites = st.thumbWrites ∧
    (processEntries st d es).2 = es := by
  cases es with
  | nil => exact ⟨rfl, rfl, rfl, rfl⟩
  | cons e rest =>
    simp only [ReadyL] at h
    have ih1 := processEntry_fix st d e h.1
    have hrest : ReadyL (processEntry st d e).1.fs d rest := by
      rw [ih1.1]
      exact h.2
    have ih2 := processEntries_fix (processEntry st d e).1 d rest hrest
    show (processEntries (processEntry st d e).1 d rest).1.fs = st.fs ∧
      (processEntries (processEntry st d e).1 d rest).1.origWrites = st.origWrites ∧
      (processEntries (processEntry st d e).1 d rest).1.thumbWrites = st.thumbWrites ∧
      (processEntry st d e).2 :: (processEntries (processEntry st d e).1 d rest).2 = e :: rest
    refine ⟨?_, ?_, ?_, ?_⟩
    · rw [ih2.1, ih1.1]
    · rw [ih2.2.1, ih1.2.1]
    · rw [ih2.2.2.1, ih1.2.2.1]
    · rw [ih1.2.2.2, ih2.2.2.2]

end

mutual

theorem recordsE_tree (st : St) (n0 : Nat) (d : List String) (e : Entry) :
    recordsE n0 d (processEntry st d e).2 = recordsE n0 d e := by
  cases e with
  | file n c =>
    show recordsE n0 d (.file (processFile (ensureDir st d) d n c).2.1
      (processFile (ensureDir st d) d n c).2.2) = _
    rw [processFile_snd]
    dsimp only
    by_cases h : extLower n ∈ allowedExts
    · simp only [if_pos h, recordsE]
      rw [optStep_stable]
    · simp only [if_neg h]
  | dir n es =>
    show recordsE n0 d (.dir n (processEntries (ensureDir st d) (d ++ [n]) es).2) = _
    simp only [recordsE]
    exact recordsL_tree (ensureDir st d) n0 (d ++ [n]) es

theorem recordsL_tree (st : St) (n0 : Nat) (d : List String) (es : List Entry) :
    recordsL n0 d (processEntries st d es).2 = recordsL n0 d es := by
  cases es with
  | nil => rfl
  | cons e rest =>
    have ih1 := recordsE_tree st n0 d e
    show recordsL n0 d ((processEntry st d e).2 ::
      (processEntries (processEntry st d e).1 d rest).2) = _
    simp only [recordsL]
    rw [ih1]
    rw [recordsL_tree (processEntry st d e).1 (n0 + (recordsE n0 d e).length) d rest]

end

/-! ## Claim theorems -/

/-- C3: the shutter-speed formatter passes a value containing the fraction
separator through unchanged; a parsed value at least 1 or exactly 0 (with the
exact decimal n / 10 ^ k, the guards are 10 ^ k ≤ n and n = 0, and the string
form of 0 is truthy, hence returned unchanged) passes through unchanged;
any other parsed value is reformatted as the fraction with the half-up
rounding of its inverse; the falsy (empty) input yields the empty string;
0.004 becomes 1/250. -/
theorem formatShutter_spec :
    formatShutter "" = "" ∧
    (∀ s, s ≠ "" → slashIn s = true → formatShutter s = s) ∧
    (∀ s n k, s ≠ "" → slashIn s = false → parseDec s = some (n, k) →
      10 ^ k ≤ n ∨ n = 0 → formatShutter s = s) ∧
    (∀ s n k, s ≠ "" → slashIn s = false → parseDec s = some (n, k) →
      ¬(10 ^ k ≤ n ∨ n = 0) →
      formatShutter s = "1/" ++ toString (jsRoundRatio (10 ^ k) n)) ∧
    formatShutter "0.004" = "1/250" ∧ formatShutter "0" = "0" ∧
    formatShutter "1/250" = "1/250" ∧ formatShutter "2" = "2" := by
  refine ⟨by decide, ?_, ?_, ?_, by decide, by decide, by decide, by decide⟩
  · intro s hs hslash
    simp [formatShutter, hs, hslash]
  · intro s n k hs hslash hp hcond
    simp [formatShutter, hs, hslash, hp, hcond]
  · intro s n k hs hslash hp hcond
    simp [formatShutter, hs, hslash, hp, hcond]

/-- Witness for the shutter formatter at concrete inputs. -/
theorem formatShutter_spec_witness :
    formatShutter "1/250" = "1/250" ∧ formatShutter "2" = "2" ∧
    formatShutter "0.5" = "1/" ++ toString (jsRoundRatio (10 ^ 1) 5) := by
  refine ⟨?_, ?_, ?_⟩
  · exact formatShutter_spec.2.1 "1/250" (by decide) (by decide)
  · exact formatShutter_spec.2.2.1 "2" 2 0 (by decide) (by decide) (by decide) (by decide)
  · exact formatShutter_spec.2.2.2.1 "0.5" 5 1 (by decide) (by decide) (by decide) (by decide)

/-- C8: the aperture formatter passes a value through unchanged when its
lowercase form starts with the letter f, otherwise prefixes it; the falsy
(empty) input yields the empty string. -/
theorem formatAperture_spec :
    formatAperture "" = "" ∧
    (∀ s, s ≠ "" → startsWithF s = true → formatAperture s = s) ∧
    (∀ s, s ≠ "" → startsWithF s = false → formatAperture s = "f/" ++ s) ∧
    formatAperture "1.8" = "f/1.8" ∧ formatAperture "f/1.8" = "f/1.8" := by
  refine ⟨by decide, ?_, ?_, by decide, by decide⟩
  · intro s hs hf
    simp [formatAperture, hs, hf]
  · intro s hs hf
    simp [formatAperture, hs, hf]

/-- Witness for the aperture formatter at concrete inputs. -/
theorem formatAperture_spec_witness :
    formatAperture "F2.8" = "F2.8" ∧ formatAperture "2.8" = "f/" ++ "2.8" := by
  refine ⟨?_, ?_⟩
  · exact formatAperture_spec.2.1 "F2.8" (by decide) (by decide)
  · exact formatAperture_spec.2.2.1 "2.8" (by decide) (by decide)

/-- C4: when the photos root is absent, the module startup creates it as an
empty directory, so the pipeline completes and writes the empty manifest to
the output file, reporting zero photos. -/
theorem absentRoot_spec (fs0 : FsState) :
    (runScript none fs0).output = some [] ∧ (runScript none fs0).reported = some 0 := by
  unfold runScript generateGallery
  simp [run, processEntries, initSt]

/-- C2: a processed (allow-listed, decodable) original is rewritten in place
exactly when its orientation is non-default or a stored dimension exceeds the
configured maximum; when neither holds the file on disk stays identical. -/
theorem optimizeGuard_spec (st : St) (d : List String) (n : String) (c : FileContent)
    (m : ImageMeta) (hm : c.meta = some m) (hx : extLower n ∈ allowedExts) :
    (processEntry st d (.file n c)).1.origWrites =
      st.origWrites ++ (if needsRotation m || isTooLarge m then [d ++ [n]] else []) ∧
    ((needsRotation m || isTooLarge m) = false →
      (processEntry st d (.file n c)).2 = .file n c) := by
  constructor
  · show (processFile (ensureDir st d) d n c).1.origWrites = _
    rw [processFile_origWrites, ensureDir_origWrites, if_pos hx, optStep_updated c m hm]
  · intro hfalse
    show Entry.file (processFile (ensureDir st d) d n c).2.1
      (processFile (ensureDir st d) d n c).2.2 = Entry.file n c
    rw [processFile_snd]
    simp only [if_pos hx]
    rw [optStep_of_false c m hm hfalse]

/-- Witness for the rewrite guard on a small, correctly oriented image. -/
theorem optimizeGuard_spec_witness :
    (processEntry (initSt ⟨[], []⟩) [] (.file "a.jpg"
        ⟨ImgFormat.jpeg, none, some ⟨100, 50, none⟩, some (100, 50), some []⟩)).1.origWrites =
      (initSt ⟨[], []⟩).origWrites ++
        (if needsRotation ⟨100, 50, none⟩ || isTooLarge ⟨100, 50, none⟩
          then [[] ++ ["a.jpg"]] else []) ∧
    ((needsRotation ⟨100, 50, none⟩ || isTooLarge ⟨100, 50, none⟩) = false →
      (processEntry (initSt ⟨[], []⟩) [] (.file "a.jpg"
        ⟨ImgFormat.jpeg, none, some ⟨100, 50, none⟩, some (100, 50), some []⟩)).2 =
        .file "a.jpg" ⟨ImgFormat.jpeg, none, some ⟨100, 50, none⟩, some (100, 50), some []⟩) :=
  optimizeGuard_spec _ _ _ _ _ (by decide) (by decide)

/-- C9: whenever the optimization triggers, the rewritten original is the
JPEG re-encode at the configured full quality, whatever the source format,
and it is stored under the unchanged file name. -/
theorem jpegReencode_spec (st : St) (d : List String) (n : String) (c : FileContent)
    (m : ImageMeta) (hm : c.meta = some m) (hx : extLower n ∈ allowedExts)
    (htr : (needsRotation m || isTooLarge m) = true) :
    (processEntry st d (.file n c)).2 = .file n (optimizeContent c m) ∧
    (optimizeContent c m).format = ImgFormat.jpeg ∧
    (optimizeContent c m).encQuality = some fullQuality := by
  refine ⟨?_, rfl, rfl⟩
  show Entry.file (processFile (ensureDir st d) d n c).2.1
    (processFile (ensureDir st d) d n c).2.2 = _
  rw [processFile_snd]
  simp only [if_pos hx]
  rw [optStep_of_true c m hm htr]

/-- Witness for the JPEG re-encode on an oversized png source. -/
theorem jpegReencode_spec_witness :
    (processEntry (initSt ⟨[], []⟩) [] (.file "p.png"
        ⟨ImgFormat.png, none, some ⟨5000, 2000, none⟩, some (5000, 2000), some []⟩)).2 =
      .file "p.png" (optimizeContent
        ⟨ImgFormat.png, none, some ⟨5000, 2000, none⟩, some (5000, 2000), some []⟩
        ⟨5000, 2000, none⟩) ∧
    (optimizeContent
        ⟨ImgFormat.png, none, some ⟨5000, 2000, none⟩, some (5000, 2000), some []⟩
        ⟨5000, 2000, none⟩).format = ImgFormat.jpeg ∧
    (optimizeContent
        ⟨ImgFormat.png, none, some ⟨5000, 2000, none⟩, some (5000, 2000), some []⟩
        ⟨5000, 2000, none⟩).encQuality = some fullQuality :=
  jpegReencode_spec _ _ _ _ _ (by decide) (by decide) (by decide)

/-- C7: when none of the looked-up tag names resolves (unparsable tags or
absent fields), the record is still produced and its EXIF sub-record carries
the fixed placeholders and empty strings. -/
theorem missingMetadata_spec (st : St) (d : List String) (n : String) (c : FileContent)
    (hx : extLower n ∈ allowedExts)
    (htags : ∀ k ∈ lookedUpTags, tagLookup (tagsOf c) k = none) :
    (processEntry st d (.file n c)).1.photos =
      st.photos ++ [mkPhoto st.nextId d n (optStep c).1] ∧
    (mkPhoto st.nextId d n (optStep c).1).exif =
      ⟨"Unknown Camera", "Unknown Lens", "", "", ""⟩ := by
  constructor
  · show (processFile (ensureDir st d) d n c).1.photos = _
    rw [processFile_photos, ensureDir_photos, ensureDir_nextId, if_pos hx]
  · have htg : tagsOf (optStep c).1 = tagsOf c := by
      unfold tagsOf
      rw [optStep_tags]
    have hg : ∀ k ∈ lookedUpTags, getTag (tagsOf c) k = "" := by
      intro k hk
      unfold getTag
      rw [htags k hk]
    simp only [mkPhoto]
    simp only [exifOf, htg]
    rw [hg "Model" (by decide), hg "Make" (by decide), hg "LensModel" (by decide),
      hg "Lens" (by decide), hg "LensInfo" (by decide), hg "ISOSpeedRatings" (by decide),
      hg "ISO" (by decide), hg "FNumber" (by decide), hg "ApertureValue" (by decide),
      hg "ExposureTime" (by decide), hg "ShutterSpeedValue" (by decide)]
    simp [orFalsy, formatAperture, formatShutter]

/-- Witness for the missing-metadata defaults on a file with unreadable
tags. -/
theorem missingMetadata_spec_witness :
    (processEntry (initSt ⟨[], []⟩) [] (.file "a.jpg"
        ⟨ImgFormat.jpeg, none, some ⟨100, 50, none⟩, some (100, 50), none⟩)).1.photos =
      (initSt ⟨[], []⟩).photos ++ [mkPhoto (initSt ⟨[], []⟩).nextId [] "a.jpg"
        (optStep ⟨ImgFormat.jpeg, none, some ⟨100, 50, none⟩, some (100, 50), none⟩).1] ∧
    (mkPhoto (initSt ⟨[], []⟩).nextId [] "a.jpg"
        (optStep ⟨ImgFormat.jpeg, none, some ⟨100, 50, none⟩, some (100, 50), none⟩).1).exif =
      ⟨"Unknown Camera", "Unknown Lens", "", "", ""⟩ :=
  missingMetadata_spec _ _ _ _ (by decide) (by decide)

/-- C10: the mirrored thumbnail directory of the containing directory is
created for every visited entry before the extension filter runs, so a
directory with at least one entry — even when all its files are unsupported —
gets its mirror created. -/
theorem mkdirBeforeFilter_spec :
    (∀ st d e, d ∈ (processEntry st d e).1.fs.thumbDirs) ∧
    (∀ st d nm es, es ≠ [] →
      d ++ [nm] ∈ (processEntry st d (.dir nm es)).1.fs.thumbDirs) := by
  have h1 : ∀ st d e, d ∈ (processEntry st d e).1.fs.thumbDirs := by
    intro st d e
    cases e with
    | file n c =>
      show d ∈ (processFile (ensureDir st d) d n c).1.fs.thumbDirs
      rw [processFile_thumbDirs]
      exact ensureDir_mem st d
    | dir n es =>
      show d ∈ (processEntries (ensureDir st d) (d ++ [n]) es).1.fs.thumbDirs
      exact (processEntries_mono _ _ _).1 (ensureDir_mem st d)
  refine ⟨h1, ?_⟩
  intro st d nm es hne
  cases es with
  | nil => exact absurd rfl hne
  | cons e rest =>
    show d ++ [nm] ∈ (processEntries
      (processEntry (ensureDir st d) (d ++ [nm]) e).1 (d ++ [nm]) rest).1.fs.thumbDirs
    exact (processEntries_mono _ _ _).1 (h1 _ _ _)

/-- Witness for the mirrored-directory creation: a directory holding just one
unsupported text file still gets its mirror. -/
theorem mkdirBeforeFilter_spec_witness :
    [] ∈ (processEntry (initSt ⟨[], []⟩) [] (.file "note.txt"
      ⟨ImgFormat.other, none, none, none, none⟩)).1.fs.thumbDirs ∧
    ["docs"] ∈ (processEntry (initSt ⟨[], []⟩) [] (.dir "docs" [.file "note.txt"
      ⟨ImgFormat.other, none, none, none, none⟩])).1.fs.thumbDirs :=
  ⟨mkdirBeforeFilter_spec.1 _ _ _,
   mkdirBeforeFilter_spec.2 _ [] "docs" _ (List.cons_ne_nil _ _)⟩

/-- C5: the ids of the records one run emits are exactly the consecutive
integers starting at 1, in manifest order. -/
theorem idSequence_spec (fs : FsState) (tree : List Entry) :
    (run fs tree).photos.map (fun p => p.id) =
      List.range' 1 (run fs tree).photos.length := by
  have h := processEntries_photos (initSt fs) [] tree
  show (processEntries (initSt fs) [] tree).1.photos.map (fun p => p.id) =
    List.range' 1 (processEntries (initSt fs) [] tree).1.photos.length
  rw [h.1]
  show (recordsL 1 [] tree).map (fun p => p.id) =
    List.range' 1 (recordsL 1 [] tree).length
  exact recordsL_ids 1 [] tree

/-- C6: the sources of the emitted records are exactly the web paths of the
allow-listed files, in traversal order: an unsupported file contributes no
record and every allow-listed file contributes exactly one. -/
theorem allowListFilter_spec (fs : FsState) (tree : List Entry) :
    (run fs tree).photos.map (fun p => p.src) =
      (allowedPathsL [] tree).map (fun p => "/photos/" ++ joinPath p) := by
  have h := processEntries_photos (initSt fs) [] tree
  show (processEntries (initSt fs) [] tree).1.photos.map (fun p => p.src) = _
  rw [h.1]
  show (recordsL 1 [] tree).map (fun p => p.src) = _
  exact recordsL_srcs 1 [] tree

/-- C1: a second run over the source tree and derived filesystem the first
run left behind emits the identical manifest, leaves tree and filesystem
untouched, rewrites no original and no preview; and per processed file,
preview generation is skipped exactly when the preview already exists at the
target path and the original was not rewritten this run. -/
theorem idempotence_spec (fs : FsState) (tree : List Entry) :
    (run (run fs tree).fs (run fs tree).tree).photos = (run fs tree).photos ∧
    (run (run fs tree).fs (run fs tree).tree).tree = (run fs tree).tree ∧
    (run (run fs tree).fs (run fs tree).tree).fs = (run fs tree).fs ∧
    (run (run fs tree).fs (run fs tree).tree).origWrites = [] ∧
    (run (run fs tree).fs (run fs tree).tree).thumbWrites = [] ∧
    (∀ st d n c, extLower n ∈ allowedExts →
      ((processEntry st d (.file n c)).1.thumbAttempts = st.thumbAttempts ↔
        (thumbExists st.fs (thumbRelOf d n) = true ∧ (optStep c).2 = false))) := by
  have hready : ReadyL (processEntries (initSt fs) [] tree).1.fs []
      (processEntries (initSt fs) [] tree).2 := processEntries_post (initSt fs) [] tree
  have hfix := processEntries_fix
    (initSt (processEntries (initSt fs) [] tree).1.fs) []
    (processEntries (initSt fs) [] tree).2 hready
  have hb := processEntries_photos
    (initSt (processEntries (initSt fs) [] tree).1.fs) []
    (processEntries (initSt fs) [] tree).2
  have ha := processEntries_photos (initSt fs) [] tree
  have htree := recordsL_tree (initSt fs) 1 [] tree
  refine ⟨?_, ?_, ?_, ?_, ?_, ?_⟩
  · show (processEntries (initSt (processEntries (initSt fs) [] tree).1.fs) []
      (processEntries (initSt fs) [] tree).2).1.photos =
      (processEntries (initSt fs) [] tree).1.photos
    rw [hb.1, ha.1]
    show recordsL 1 [] (processEntries (initSt fs) [] tree).2 = recordsL 1 [] tree
    exact htree
  · exact hfix.2.2.2
  · exact hfix.1
  · exact hfix.2.1
  · exact hfix.2.2.1
  · intro st d n c hx
    show (processFile (ensureDir st d) d n c).1.thumbAttempts = st.thumbAttempts ↔ _
    rw [processFile_thumbAttempts, ensureDir_thumbAttempts, if_pos hx, ensureDir_thumbExists]
    by_cases hcond : (!thumbExists st.fs (thumbRelOf d n) || (optStep c).2) = true
    · rw [if_pos hcond]
      constructor
      · intro hcontra
        exfalso
        have hlen := congrArg List.length hcontra
        simp at hlen
      · intro hrhs
        exfalso
        rw [hrhs.1, hrhs.2] at hcond
        simp at hcond
    · rw [if_neg hcond]
      simp at hcond
      simp [hcond]

/-- Witness for the idempotence theorem: a one-image library, and the skip
rule instantiated at a small concrete state. -/
theorem idempotence_spec_witness :
    (run (run ⟨[[]], []⟩ [Entry.file "a.jpg"
        ⟨ImgFormat.jpeg, none, some ⟨100, 50, none⟩, some (100, 50), some []⟩]).fs
      (run ⟨[[]], []⟩ [Entry.file "a.jpg"
        ⟨ImgFormat.jpeg, none, some ⟨100, 50, none⟩, some (100, 50), some []⟩]).tree).photos =
      (run ⟨[[]], []⟩ [Entry.file "a.jpg"
        ⟨ImgFormat.jpeg, none, some ⟨100, 50, none⟩, some (100, 50), some []⟩]).photos ∧
    ((processEntry (initSt ⟨[], []⟩) [] (.file "a.jpg"
        ⟨ImgFormat.jpeg, none, some ⟨100, 50, none⟩, some (100, 50), some []⟩)).1.thumbAttempts =
        (initSt ⟨[], []⟩).thumbAttempts ↔
      (thumbExists (initSt (⟨[], []⟩ : FsState)).fs (thumbRelOf [] "a.jpg") = true ∧
        (optStep ⟨ImgFormat.jpeg, none, some ⟨100, 50, none⟩, some (100, 50), some []⟩).2 =
          false)) :=
  ⟨(idempotence_spec ⟨[[]], []⟩ [Entry.file "a.jpg"
      ⟨ImgFormat.jpeg, none, some ⟨100, 50, none⟩, some (100, 50), some []⟩]).1,
   (idempotence_spec ⟨[[]], []⟩ []).2.2.2.2.2 (initSt ⟨[], []⟩) [] "a.jpg"
      ⟨ImgFormat.jpeg, none, some ⟨100, 50, none⟩, some (100, 50), some []⟩ (by decide)⟩

/-- Witness for the absent-root behavior at a concrete initial filesystem. -/
theorem absentRoot_spec_witness :
    (runScript none (⟨[], []⟩ : FsState)).output = some [] ∧
    (runScript none (⟨[], []⟩ : FsState)).reported = some 0 :=
  absentRoot_spec ⟨[], []⟩

/-- Witness for the id sequencing on a concrete two-image tree. -/
theorem idSequence_spec_witness :
    (run (⟨[[]], []⟩ : FsState) [Entry.file "a.jpg"
        ⟨ImgFormat.jpeg, none, some ⟨100, 50, none⟩, some (100, 50), some []⟩,
      Entry.file "b.jpg"
        ⟨ImgFormat.jpeg, none, some ⟨100, 50, none⟩, some (100, 50), some []⟩]).photos.map
        (fun p => p.id) =
      List.range' 1 (run (⟨[[]], []⟩ : FsState) [Entry.file "a.jpg"
        ⟨ImgFormat.jpeg, none, some ⟨100, 50, none⟩, some (100, 50), some []⟩,
      Entry.file "b.jpg"
        ⟨ImgFormat.jpeg, none, some ⟨100, 50, none⟩, some (100, 50), some []⟩]).photos.length :=
  idSequence_spec _ _

/-- Witness for the allow-list filter on a tree mixing a supported image and
an unsupported text file. -/
theorem allowListFilter_spec_witness :
    (run (⟨[[]], []⟩ : FsState) [Entry.file "a.jpg"
        ⟨ImgFormat.jpeg, none, some ⟨100, 50, none⟩, some (100, 50), some []⟩,
      Entry.file "note.txt" ⟨ImgFormat.other, none, none, none, none⟩]).photos.map
        (fun p => p.src) =
      (allowedPathsL [] [Entry.file "a.jpg"
          ⟨ImgFormat.jpeg, none, some ⟨100, 50, none⟩, some (100, 50), some []⟩,
        Entry.file "note.txt" ⟨ImgFormat.other, none, none, none, none⟩]).map
        (fun p => "/photos/" ++ joinPath p) :=
  allowListFilter_spec _ _
